import Mathlib

/-!
# A shallow embedding of the botic/validator chain engine

This file embeds the validation/sanitization chain engine of the
repository in Lean 4 and proves the specification's claims about it.

The repository carries two complete revisions of the engine:

* the 2.x revision embedded in `src/test/all.js` (class `Validator`, class
  `Validation`, `VoidValidation`, `checkResult`, `voidCheck`,
  `hasUnvalidatedProperties`, `optional(defaultValue, strict)`), which the
  claims' line references point at and which is embedded here as the
  primary model; and
* the older revision in `src/lib/validator.js`, whose `VoidValidation`
  keeps the sanitizer methods (names starting with "to") and `getValue`
  active; its inert-chain dispatch is embedded in the `V1` namespace.

JavaScript values are modelled by `JSVal`; JavaScript numbers by `JSNum`
(a rational together with a NaN sentinel — the claims never exercise
binary-floating-point rounding, infinities, or negative zero, so finite
doubles are modelled exactly by the rationals they denote).  Mutation is
modelled by explicit state passing: a chain expression carries the
registered `Validation` record and a `ChainHandle` saying whether the
expression currently holds the live `Validation` object or an inert
`VoidValidation`, and the final record is committed back into the
validator's map (the source mutates the same object in place; for the
straight-line chain expressions of the claims the two are observationally
identical).  Fallible lookups (`undefined.messages`, a TypeError in the
source) are returned as `none`.
-/

/-- JavaScript numbers: a rational (exact model of finite doubles on the
inputs the engine is exercised with) or the NaN sentinel. -/
inductive JSNum where
  | nan : JSNum
  | num : ℚ → JSNum
deriving DecidableEq, Repr

/-- JavaScript values as they flow through the engine: `undefined`,
`null`, booleans, numbers and strings.  (The claims never inspect
structured object or array values, so those are not populated here.) -/
inductive JSVal where
  | undef : JSVal
  | null : JSVal
  | bool : Bool → JSVal
  | num : JSNum → JSVal
  | str : String → JSVal
deriving DecidableEq, Repr

namespace JSVal

/-- JavaScript `typeof value === "string"`. -/
def isString : JSVal → Bool
  | str _ => true
  | _ => false

/-- JavaScript truthiness: `undefined`, `null`, `false`, `0`, `NaN` and
the empty string are falsy, everything else is truthy. -/
def truthy : JSVal → Bool
  | undef => false
  | null => false
  | bool b => b
  | num JSNum.nan => false
  | num (JSNum.num q) => q != 0
  | str s => s != ""

end JSVal

/-- Numeric value of a list of decimal digit characters. -/
def digitsToNat (l : List Char) : Nat :=
  l.foldl (fun a c => a * 10 + (c.toNat - 48)) 0

/-- Modelled from the spec: the external string-classification
collaborator's integer-literal test (`ringo/utils/strings.isInt`), a valid
integer string literal: an optional minus sign followed by decimal digits
with no superfluous leading zero (the repository's tests pin
`isInt("0123456") = false` and `isInt("123456") = true`). -/
def stringsIsInt (s : String) : Bool :=
  let l := match s.toList with
    | '-' :: t => t
    | t => t
  match l with
  | [] => false
  | ['0'] => true
  | c :: t => c.isDigit && c != '0' && t.all Char.isDigit

/-- Modelled from the spec: the external collaborator's alphabetic test
(`ringo/utils/strings.isAlpha`): a non-empty string of ASCII letters. -/
def stringsIsAlpha (s : String) : Bool :=
  !s.isEmpty && s.toList.all Char.isAlpha

/-- Modelled from the spec: the external collaborator's float-literal test
(`ringo/utils/strings.isFloat`): an optional minus sign, an integer part,
a decimal point and a fractional part (the repository's tests pin
`isFloat("123456") = false` and `isFloat("123.456") = true`). -/
def stringsIsFloat (s : String) : Bool :=
  let l := match s.toList with
    | '-' :: t => t
    | t => t
  let ip := l.takeWhile Char.isDigit
  match l.dropWhile Char.isDigit with
  | '.' :: fp => !ip.isEmpty && !fp.isEmpty && fp.all Char.isDigit
  | _ => false

/-- Leading and trailing whitespace removed from a character list. -/
def trimList (l : List Char) : List Char :=
  ((l.dropWhile Char.isWhitespace).reverse.dropWhile Char.isWhitespace).reverse

/-- JavaScript `String.prototype.trim` (structurally recursive, so that
concrete runs reduce inside the kernel). -/
def jsTrim (s : String) : String :=
  String.mk (trimList s.toList)

/-- Lexicographic comparison of character lists by code point — the
JavaScript string ordering. -/
def charListLt : List Char → List Char → Bool
  | [], [] => false
  | [], _ :: _ => true
  | _ :: _, [] => false
  | a :: as, b :: bs =>
    if a.val < b.val then true
    else if b.val < a.val then false
    else charListLt as bs

/-- JavaScript `s1 < s2` on strings. -/
def jsStringLt (s1 s2 : String) : Bool :=
  charListLt s1.toList s2.toList

/-- JavaScript `parseInt(string, 10)`: skip leading whitespace, read an
optional sign and then the longest run of decimal digits; NaN when there
is none.  (The `0x` hexadecimal prefix is not modelled; no input of the
engine reaches it.) -/
def parseIntString (s : String) : JSNum :=
  let l := (jsTrim s).toList
  let p : Int × List Char := match l with
    | '-' :: t => (-1, t)
    | '+' :: t => (1, t)
    | t => (1, t)
  let d := p.2.takeWhile Char.isDigit
  if d.isEmpty then JSNum.nan
  else JSNum.num ((p.1 * (digitsToNat d : Int) : Int) : ℚ)

/-- JavaScript `parseFloat(string)`: skip leading whitespace, read an
optional sign, digits, and an optional fractional part; NaN when no digit
was read.  (Exponent suffixes are not modelled; no input of the engine
reaches them.) -/
def parseFloatString (s : String) : JSNum :=
  let l := (jsTrim s).toList
  let p : ℚ × List Char := match l with
    | '-' :: t => (-1, t)
    | '+' :: t => (1, t)
    | t => (1, t)
  let ip := p.2.takeWhile Char.isDigit
  let r := p.2.dropWhile Char.isDigit
  match r with
  | '.' :: r2 =>
    let fp := r2.takeWhile Char.isDigit
    if ip.isEmpty && fp.isEmpty then JSNum.nan
    else JSNum.num (p.1 * ((digitsToNat ip : ℚ) + (digitsToNat fp : ℚ) / ((10 : ℚ) ^ fp.length)))
  | _ => if ip.isEmpty then JSNum.nan else JSNum.num (p.1 * (digitsToNat ip : ℚ))

/-- Truncation toward zero, the rounding `parseInt` applies to the decimal
string rendering of a finite number. -/
def ratTrunc (q : ℚ) : Int :=
  if q ≥ 0 then ⌊q⌋ else ⌈q⌉

/-- JavaScript `parseInt(value, 10)` on an engine value: strings are
parsed; other values are first converted to a string, so finite numbers
truncate toward zero and `undefined`, `null`, booleans and NaN yield
NaN. -/
def parseIntOf : JSVal → JSNum
  | JSVal.str s => parseIntString s
  | JSVal.num (JSNum.num q) => JSNum.num ((ratTrunc q : Int) : ℚ)
  | _ => JSNum.nan

/-- JavaScript `parseFloat(value)` on an engine value: strings are parsed;
a number converts to its own string rendering and parses back to itself
(NaN stays NaN); `undefined`, `null` and booleans yield NaN. -/
def parseFloatOf : JSVal → JSNum
  | JSVal.str s => parseFloatString s
  | JSVal.num n => n
  | _ => JSNum.nan

/-- JavaScript ToNumber on a string: whitespace-only strings are `0`, a
full signed decimal literal (optional fraction) denotes its value, and
anything else is NaN. -/
def toNumberString (s : String) : JSNum :=
  let t := jsTrim s
  if t.isEmpty then JSNum.num 0
  else
    let p : ℚ × List Char := match t.toList with
      | '-' :: r => (-1, r)
      | '+' :: r => (1, r)
      | r => (1, r)
    let ip := p.2.takeWhile Char.isDigit
    let r1 := p.2.dropWhile Char.isDigit
    match r1 with
    | '.' :: r2 =>
      let fp := r2.takeWhile Char.isDigit
      let r3 := r2.dropWhile Char.isDigit
      if (ip.isEmpty && fp.isEmpty) || !r3.isEmpty then JSNum.nan
      else JSNum.num (p.1 * ((digitsToNat ip : ℚ) + (digitsToNat fp : ℚ) / ((10 : ℚ) ^ fp.length)))
    | [] =>
      if ip.isEmpty then JSNum.nan
      else JSNum.num (p.1 * (digitsToNat ip : ℚ))
    | _ => JSNum.nan

/-- JavaScript ToNumber on an engine value. -/
def jsToNumber : JSVal → JSNum
  | JSVal.undef => JSNum.nan
  | JSVal.null => JSNum.num 0
  | JSVal.bool b => JSNum.num (if b then 1 else 0)
  | JSVal.num n => n
  | JSVal.str s => toNumberString s

/-- JavaScript `a > b` (the abstract relational comparison): two strings
compare lexicographically, otherwise both sides convert to numbers and a
NaN on either side makes the comparison false. -/
def jsGreaterThan (a b : JSVal) : Bool :=
  match a, b with
  | JSVal.str s1, JSVal.str s2 => jsStringLt s2 s1
  | _, _ =>
    match jsToNumber a, jsToNumber b with
    | JSNum.num x, JSNum.num y => decide (y < x)
    | _, _ => false

/-- JavaScript `Number.isSafeInteger(value)`: an integral number of
magnitude at most `2 ^ 53 - 1`. -/
def isSafeInteger : JSVal → Bool
  | JSVal.num (JSNum.num q) => q.den == 1 && q.num.natAbs ≤ 2 ^ 53 - 1
  | _ => false

/-- The body of `Validation.prototype.toInt` (at its default radix 10,
the only radix the repository exercises): a string that is not a valid
integer literal first becomes NaN, then the value is parsed with
`parseInt`. -/
def intConv (v : JSVal) : JSVal :=
  let v1 := match v with
    | JSVal.str s => if stringsIsInt s then v else JSVal.num JSNum.nan
    | _ => v
  JSVal.num (parseIntOf v1)

/-- The body of `Validation.prototype.toFloat`: a string that is not a
valid float literal first becomes NaN, then the value is parsed with
`parseFloat`. -/
def floatConv (v : JSVal) : JSVal :=
  let v1 := match v with
    | JSVal.str s => if stringsIsFloat s then v else JSVal.num JSNum.nan
    | _ => v
  JSVal.num (parseFloatOf v1)

/-- The body of `Validation.prototype.toBoolean`: strict mode is true
exactly on the strings "1" and "true"; loose mode is false exactly on
`null`, `undefined`, "0", "false" and the empty string. -/
def boolConv (strictTrue : Bool) (v : JSVal) : JSVal :=
  if strictTrue then
    JSVal.bool (v == JSVal.str "1" || v == JSVal.str "true")
  else
    JSVal.bool (v != JSVal.null && v != JSVal.undef &&
      v != JSVal.str "0" && v != JSVal.str "false" && v != JSVal.str "")

/-- The `Validation` record of `src/test/all.js`: field name, current
working value, the stop-on-first-failure flag fixed at creation, the
validity flag and the ordered failure messages. -/
structure Validation where
  key : String
  value : JSVal
  stopOnFail : Bool
  isValid : Bool
  messages : List String
deriving DecidableEq, Repr

/-- Which object a chain expression currently holds: the live
`Validation` registered with the validator, or an inert `VoidValidation`
carrying only its own copy of a value. -/
inductive ChainHandle where
  | validation : ChainHandle
  | voidValidation : JSVal → ChainHandle
deriving DecidableEq, Repr

/-- The state of a chain expression: the registered `Validation` record
(the source mutates this object in place; here it is threaded
explicitly) together with the handle the expression currently holds. -/
structure Chain where
  reg : Validation
  handle : ChainHandle
deriving DecidableEq, Repr

/-- The shared `checkResult` helper of `src/test/all.js`: a passing check
returns the validation unchanged; a failing check clears `isValid`,
appends the message, and under `stopOnFail` hands the expression a fresh
`VoidValidation` carrying the current value. -/
def checkResult (reg : Validation) (passes : Bool) (message : String) : Chain :=
  if passes then ⟨reg, ChainHandle.validation⟩
  else
    let reg' := { reg with isValid := false, messages := reg.messages ++ [message] }
    if reg'.stopOnFail then ⟨reg', ChainHandle.voidValidation reg'.value⟩
    else ⟨reg', ChainHandle.validation⟩

namespace Chain

/-- Dispatch of a predicate method: on a `VoidValidation` every predicate
is the no-op `voidCheck`; on the live validation the method evaluates its
condition against the current working value and calls `checkResult`.
Every predicate method of `Validation.prototype` factors through this
with its own condition. -/
def predOp (c : Chain) (cond : JSVal → Bool) (message : String) : Chain :=
  match c.handle with
  | ChainHandle.voidValidation _ => c
  | ChainHandle.validation => checkResult c.reg (cond c.reg.value) message

/-- Dispatch of a sanitizer method in the `src/test/all.js` revision: the
`VoidValidation` loop there maps every method except `getValue` to
`voidCheck`, so on an inert chain a sanitizer is a no-op; on the live
validation it replaces the working value with the computed result. -/
def sanitize (c : Chain) (f : JSVal → JSVal) : Chain :=
  match c.handle with
  | ChainHandle.voidValidation _ => c
  | ChainHandle.validation => ⟨{ c.reg with value := f c.reg.value }, ChainHandle.validation⟩

/-- `Validation.prototype.hasLength`: a string of exactly the given
length. -/
def hasLength (c : Chain) (length : Nat) (message : String) : Chain :=
  c.predOp (fun v => match v with
    | JSVal.str s => s.length == length
    | _ => false) message

/-- `Validation.prototype.isAlpha`. -/
def isAlpha (c : Chain) (message : String) : Chain :=
  c.predOp (fun v => match v with
    | JSVal.str s => stringsIsAlpha s
    | _ => false) message

/-- `Validation.prototype.isInt`: a valid integer string literal, or a
value on which `Number.isSafeInteger` holds. -/
def isInt (c : Chain) (message : String) : Chain :=
  c.predOp (fun v => (match v with
    | JSVal.str s => stringsIsInt s
    | _ => false) || isSafeInteger v) message

/-- `Validation.prototype.isGreaterThan`: the JavaScript comparison
`value > right`. -/
def isGreaterThan (c : Chain) (right : JSVal) (message : String) : Chain :=
  c.predOp (fun v => jsGreaterThan v right) message

/-- `Validation.prototype.optional` of `src/test/all.js`: on the live
validation, a strict call substitutes the default exactly when the value
is `undefined`, a non-strict call substitutes it when the value is falsy,
and in both cases the expression switches to an inert `VoidValidation`
wrapping the default; otherwise the chain continues unchanged.  (On a
`VoidValidation`, `optional` is `voidCheck` like every other non-getValue
method.) -/
def optional (c : Chain) (defaultValue : JSVal) (strict : Bool) : Chain :=
  match c.handle with
  | ChainHandle.voidValidation _ => c
  | ChainHandle.validation =>
    if (strict && c.reg.value == JSVal.undef) || (!strict && !c.reg.value.truthy) then
      ⟨{ c.reg with value := defaultValue }, ChainHandle.voidValidation defaultValue⟩
    else c

/-- `Validation.prototype.toInt` (default radix). -/
def toInt (c : Chain) : Chain :=
  c.sanitize intConv

/-- `Validation.prototype.toFloat`. -/
def toFloat (c : Chain) : Chain :=
  c.sanitize floatConv

/-- `Validation.prototype.toBoolean`. -/
def toBoolean (c : Chain) (strictTrue : Bool) : Chain :=
  c.sanitize (boolConv strictTrue)

/-- `Validation.prototype.toDate`: the parsing itself is delegated to
the external date collaborator (`dates.parse` with the caller's format,
locale, timezone and leniency), passed here explicitly. -/
def toDate (c : Chain) (parse : JSVal → JSVal) : Chain :=
  c.sanitize parse

/-- `Validation.prototype.toValue` in its legal use with a callable
converter (a non-callable argument throws in the source and is outside
this embedding). -/
def toValue (c : Chain) (converter : JSVal → JSVal) : Chain :=
  c.sanitize converter

/-- `getValue` is active on both variants: a `VoidValidation` returns its
own value, the live validation returns the current working value. -/
def getValue (c : Chain) : JSVal :=
  match c.handle with
  | ChainHandle.voidValidation v => v
  | ChainHandle.validation => c.reg.value

end Chain

/-- Replace the entry for a key in an association list, keeping its
position, or append a fresh entry — JavaScript object assignment
`o[key] = v`. -/
def setEntry {α : Type} : List (String × α) → String → α → List (String × α)
  | [], key, a => [(key, a)]
  | (k, b) :: t, key, a =>
    if k = key then (key, a) :: t else (k, b) :: setEntry t key a

/-- First entry for a key in an association list — JavaScript property
lookup `o[key]` (with `none` for an absent property). -/
def getEntry {α : Type} : List (String × α) → String → Option α
  | [], _ => none
  | (k, a) :: t, key => if k = key then some a else getEntry t key

/-- The `Validator` of `src/test/all.js`: the source object under
validation and the map of registered validations, in the order fields
were first validated. -/
structure Validator where
  obj : List (String × JSVal)
  validations : List (String × Validation)
deriving DecidableEq, Repr

namespace Validator

/-- The value `addValidation` starts a chain with: the source property if
present, else `undefined`, trimmed when it is a string and trimming was
requested. -/
def resolveValue (obj : List (String × JSVal)) (key : String) (trim : Bool) : JSVal :=
  let value := match getEntry obj key with
    | some v => v
    | none => JSVal.undef
  match value with
  | JSVal.str s => if trim then JSVal.str (jsTrim s) else JSVal.str s
  | v => v

/-- `Validator.prototype.addValidation`: registers a fresh `Validation`
under the key (replacing any prior one) and returns it as the started
chain.  The updated validator is returned alongside, making the source's
in-place map update explicit. -/
def addValidation (v : Validator) (key : String) (stopOnFail trim : Bool) :
    Validator × Chain :=
  let val : Validation := ⟨key, resolveValue v.obj key trim, stopOnFail, true, []⟩
  (⟨v.obj, setEntry v.validations key val⟩, ⟨val, ChainHandle.validation⟩)

/-- `Validator.prototype.validate`: a stop-on-first-failure chain. -/
def validate (v : Validator) (key : String) (trim : Bool) : Validator × Chain :=
  v.addValidation key true trim

/-- `Validator.prototype.validateAll`: a collect-all chain. -/
def validateAll (v : Validator) (key : String) (trim : Bool) : Validator × Chain :=
  v.addValidation key false trim

/-- Store a finished chain's `Validation` record back into the map.  In
the source the chain methods mutate the registered object itself, so for
a straight-line chain expression committing the final record once is the
same state. -/
def commit (v : Validator) (c : Chain) : Validator :=
  ⟨v.obj, setEntry v.validations c.reg.key c.reg⟩

/-- `Validator.prototype.hasFailures`: with a name, true when no
validation is registered under it or the registered one is invalid;
without a name, true when any registered validation is invalid. -/
def hasFailures (v : Validator) (name : Option String) : Bool :=
  match name with
  | some n =>
    match getEntry v.validations n with
    | none => true
    | some val => !val.isValid
  | none => !(v.validations.all (fun p => p.2.isValid))

/-- The keyed branch of `Validator.prototype.getMessages`: when
`hasFailures(key)` it reads `validations[key].messages` — which is a
TypeError (`none` here) when no validation is registered under the key —
and otherwise returns an empty array. -/
def getMessagesAt (v : Validator) (key : String) : Option (List String) :=
  if v.hasFailures (some key) then (getEntry v.validations key).map Validation.messages
  else some []

/-- The aggregate branch of `Validator.prototype.getMessages`: every
registered field name mapped to (a copy of) its message array, in
registration order.  (The copying itself is invisible to this pure model;
it is made explicit in the reference model `RefValidator` below.) -/
def getMessagesAll (v : Validator) : List (String × List String) :=
  v.validations.map (fun p => (p.1, p.2.messages))

/-- `Validator.prototype.getValue`: called with the key `undefined` it
returns `undefined`; otherwise it calls `getValue()` on
`validations[key]`, which is a TypeError (`none` here) when no validation
is registered under the key. -/
def getValue (v : Validator) (key : Option String) : Option JSVal :=
  match key with
  | none => some JSVal.undef
  | some k => (getEntry v.validations k).map Validation.value

/-- `Validator.prototype.hasUnvalidatedProperties` of `src/test/all.js`
(the spec calls it `hasUncheckedProperties`): a length pre-check, then a
search for a source key with no registered validation. -/
def hasUnvalidatedProperties (v : Validator) : Bool :=
  let validationKeys := v.validations.map Prod.fst
  let objectKeys := v.obj.map Prod.fst
  if validationKeys.length < objectKeys.length then true
  else objectKeys.any (fun key => !(validationKeys.any (fun k => k == key)))

end Validator

namespace V1

/-- The `VoidValidation` of the older `src/lib/validator.js` revision: it
holds only a value.  There the prototype-copy loop keeps every method
whose name starts with "to", and `getValue`, active (bound to this
object), and maps every other method to a no-op. -/
structure VoidValidation where
  value : JSVal
deriving DecidableEq, Repr

/-- A predicate method on the old revision's `VoidValidation`: a no-op
returning the same object. -/
def VoidValidation.predOp (v : VoidValidation) (message : String) : VoidValidation :=
  let _ := message
  v

/-- `toInt` on the old revision's `VoidValidation`: the copied
`Validation.prototype.toInt` body runs against this object's value. -/
def VoidValidation.toInt (v : VoidValidation) : VoidValidation :=
  ⟨intConv v.value⟩

/-- `toFloat` on the old revision's `VoidValidation`. -/
def VoidValidation.toFloat (v : VoidValidation) : VoidValidation :=
  ⟨floatConv v.value⟩

/-- `toBoolean` on the old revision's `VoidValidation`. -/
def VoidValidation.toBoolean (v : VoidValidation) (strictTrue : Bool) : VoidValidation :=
  ⟨boolConv strictTrue v.value⟩

/-- `toDate` on the old revision's `VoidValidation`, the external date
collaborator passed explicitly. -/
def VoidValidation.toDate (v : VoidValidation) (parse : JSVal → JSVal) : VoidValidation :=
  ⟨parse v.value⟩

/-- `toValue` on the old revision's `VoidValidation` with a callable
converter. -/
def VoidValidation.toValue (v : VoidValidation) (converter : JSVal → JSVal) : VoidValidation :=
  ⟨converter v.value⟩

/-- `getValue` on the old revision's `VoidValidation`. -/
def VoidValidation.getValue (v : VoidValidation) : JSVal :=
  v.value

end V1

theorem getEntry_setEntry_self {α : Type} (l : List (String × α)) (k : String) (a : α) :
    getEntry (setEntry l k a) k = some a := by
  induction l with
  | nil => simp [setEntry, getEntry]
  | cons hd t ih =>
    by_cases h : hd.1 = k
    · simp [setEntry, getEntry, h]
    · simp only [setEntry, getEntry]
      rw [if_neg h, getEntry, if_neg h]
      exact ih

theorem getEntry_eq_none_iff {α : Type} (l : List (String × α)) (k : String) :
    getEntry l k = none ↔ k ∉ l.map Prod.fst := by
  induction l with
  | nil => simp [getEntry]
  | cons hd t ih =>
    by_cases h : hd.1 = k
    · simp [getEntry, h]
    · simp only [getEntry, if_neg h, List.map_cons, List.mem_cons, ih]
      constructor
      · rintro hn (h1 | h2)
        · exact h h1.symm
        · exact hn h2
      · intro hn
        exact fun h2 => hn (Or.inr h2)

/-!
## A reference-explicit model of the aggregate `getMessages`

The pure model above cannot express that
`messages[key] = validation.messages.slice()` hands the caller fresh
arrays rather than the chains' own `messages` arrays.  `RefValidator`
makes the mutable arrays explicit: message arrays live in a heap of
cells, each registered validation holds a reference (`msgRef`) into it,
and the aggregate `getMessages` allocates one fresh cell per field
holding a copy of that field's messages, exactly as `.slice()` does. -/

/-- A registered validation with its mutable message array replaced by a
heap reference (the `isValid` flag is the only other queried failure
state). -/
structure RefValidation where
  isValid : Bool
  msgRef : Nat
deriving DecidableEq, Repr

/-- Read a heap cell. -/
def heapRead (heap : List (List String)) (r : Nat) : List String :=
  (heap.get? r).getD []

/-- Overwrite a heap cell — the caller mutating an array it was handed. -/
def heapWrite (heap : List (List String)) (r : Nat) (a : List String) :
    List (List String) :=
  heap.set r a

/-- One fresh cell per registered validation, holding a copy of its
message array (`validation.messages.slice()`), paired with the field
name; the result refs point at the newly allocated cells. -/
def allocCopies (heap : List (List String)) :
    List (String × RefValidation) → List (List String) × List (String × Nat)
  | [] => (heap, [])
  | (key, rv) :: rest =>
    let res := allocCopies (heap ++ [heapRead heap rv.msgRef]) rest
    (res.1, (key, heap.length) :: res.2)

/-- The validator state of the reference-explicit model. -/
structure RefValidator where
  validations : List (String × RefValidation)
  heap : List (List String)
deriving DecidableEq, Repr

/-- The aggregate branch of `Validator.prototype.getMessages` in the
reference-explicit model: the validations are untouched; the returned
mapping's arrays are the freshly allocated copies. -/
def RefValidator.getMessagesAgg (v : RefValidator) :
    RefValidator × List (String × Nat) :=
  let res := allocCopies v.heap v.validations
  (⟨v.validations, res.1⟩, res.2)

theorem allocCopies_heap_ext (l : List (String × RefValidation)) (heap : List (List String)) :
    ∃ ext, (allocCopies heap l).1 = heap ++ ext := by
  induction l generalizing heap with
  | nil => exact ⟨[], by simp [allocCopies]⟩
  | cons hd t ih =>
    obtain ⟨ext, hext⟩ := ih (heap ++ [heapRead heap hd.2.msgRef])
    exact ⟨[heapRead heap hd.2.msgRef] ++ ext, by
      simp only [allocCopies]
      rw [hext, List.append_assoc]⟩

theorem heapRead_append_low (heap ext : List (List String)) (r : Nat)
    (h : r < heap.length) : heapRead (heap ++ ext) r = heapRead heap r := by
  simp [heapRead, List.getElem?_append_left h]

theorem allocCopies_heapRead_low (l : List (String × RefValidation))
    (heap : List (List String)) (r : Nat) (h : r < heap.length) :
    heapRead (allocCopies heap l).1 r = heapRead heap r := by
  obtain ⟨ext, hext⟩ := allocCopies_heap_ext l heap
  rw [hext, heapRead_append_low _ _ _ h]

theorem allocCopies_refs_ge (l : List (String × RefValidation))
    (heap : List (List String)) :
    ∀ p ∈ (allocCopies heap l).2, heap.length ≤ p.2 := by
  induction l generalizing heap with
  | nil => simp [allocCopies]
  | cons hd t ih =>
    intro p hp
    simp only [allocCopies, List.mem_cons] at hp
    rcases hp with h | h
    · simp [h]
    · have := ih (heap ++ [heapRead heap hd.2.msgRef]) p h
      simp only [List.length_append, List.length_cons, List.length_nil] at this
      omega

theorem allocCopies_keys (l : List (String × RefValidation))
    (heap : List (List String)) :
    (allocCopies heap l).2.map Prod.fst = l.map Prod.fst := by
  induction l generalizing heap with
  | nil => simp [allocCopies]
  | cons hd t ih => simp [allocCopies, ih]

theorem allocCopies_contents (l : List (String × RefValidation))
    (heap : List (List String))
    (wf : ∀ p ∈ l, p.2.msgRef < heap.length) (i : Nat) :
    ((allocCopies heap l).2.get? i).map (fun p => heapRead (allocCopies heap l).1 p.2)
      = (l.get? i).map (fun q => heapRead heap q.2.msgRef) := by
  induction l generalizing heap i with
  | nil => simp [allocCopies]
  | cons hd t ih =>
    have hwf0 : hd.2.msgRef < heap.length := wf hd (List.mem_cons_self hd t)
    cases i with
    | zero =>
      simp only [allocCopies, List.get?]
      have hlow : heapRead (allocCopies (heap ++ [heapRead heap hd.2.msgRef]) t).1 heap.length
          = heapRead (heap ++ [heapRead heap hd.2.msgRef]) heap.length := by
        apply allocCopies_heapRead_low
        simp
      simp only [Option.map_some']
      rw [hlow]
      simp [heapRead, List.getElem?_concat_length]
    | succ j =>
      simp only [allocCopies, List.get?]
      have hwf' : ∀ p ∈ t, p.2.msgRef < (heap ++ [heapRead heap hd.2.msgRef]).length := by
        intro p hp
        have := wf p (List.mem_cons_of_mem hd hp)
        simp only [List.length_append, List.length_cons, List.length_nil]
        omega
      rw [ih (heap ++ [heapRead heap hd.2.msgRef]) hwf' j]
      cases hj : t.get? j with
      | none => simp
      | some q =>
        have hq : q ∈ t := List.get?_mem hj
        simp only [Option.map_some']
        rw [heapRead_append_low _ _ _ (wf q (List.mem_cons_of_mem hd hq))]

theorem heapRead_heapWrite_ne (heap : List (List String)) (r r' : Nat)
    (a : List String) (h : r ≠ r') :
    heapRead (heapWrite heap r a) r' = heapRead heap r' := by
  simp [heapRead, heapWrite, List.getElem?_set_ne h]

/-!
## The claims
-/

/-- C1, counterexample: in the `src/test/all.js` revision a sanitizer
call on an Inert Chain does not execute.  On an inert chain holding the
string "5", `toInt` leaves the value the string "5", although the
computed result of the conversion would be the number 5. -/
theorem c1_counterexample :
    ((Chain.mk ⟨"k", JSVal.str "5", true, false, ["m"]⟩
        (ChainHandle.voidValidation (JSVal.str "5"))).toInt).getValue = JSVal.str "5" ∧
    intConv (JSVal.str "5") = JSVal.num (JSNum.num 5) ∧
    ((Chain.mk ⟨"k", JSVal.str "5", true, false, ["m"]⟩
        (ChainHandle.voidValidation (JSVal.str "5"))).toInt).getValue
      ≠ intConv (JSVal.str "5") := by
  refine ⟨rfl, by decide, by decide⟩

/-- C1, amended: once a chain has become an Inert Chain (`VoidValidation`)
the two revisions differ.  In the `src/test/all.js` revision every
predicate call, every sanitizer call (`toInt`, `toFloat`, `toBoolean`,
`toDate`, `toValue`) and `optional` are no-ops that leave the chain state
(working value, `isValid`, messages) unchanged, and only `getValue`
remains active, returning the inert value.  In the `src/lib/validator.js`
revision every sanitizer call still executes and replaces the inert
value with its computed result, every boolean-predicate call is a no-op,
and `getValue` remains active. -/
theorem c1_inert_chain_methods :
    (∀ (reg : Validation) (val : JSVal) (cond : JSVal → Bool) (m : String)
        (f : JSVal → JSVal) (d : JSVal) (st strict : Bool),
      (Chain.mk reg (ChainHandle.voidValidation val)).predOp cond m
          = Chain.mk reg (ChainHandle.voidValidation val) ∧
      (Chain.mk reg (ChainHandle.voidValidation val)).toInt
          = Chain.mk reg (ChainHandle.voidValidation val) ∧
      (Chain.mk reg (ChainHandle.voidValidation val)).toFloat
          = Chain.mk reg (ChainHandle.voidValidation val) ∧
      (Chain.mk reg (ChainHandle.voidValidation val)).toBoolean st
          = Chain.mk reg (ChainHandle.voidValidation val) ∧
      (Chain.mk reg (ChainHandle.voidValidation val)).toDate f
          = Chain.mk reg (ChainHandle.voidValidation val) ∧
      (Chain.mk reg (ChainHandle.voidValidation val)).toValue f
          = Chain.mk reg (ChainHandle.voidValidation val) ∧
      (Chain.mk reg (ChainHandle.voidValidation val)).optional d strict
          = Chain.mk reg (ChainHandle.voidValidation val) ∧
      (Chain.mk reg (ChainHandle.voidValidation val)).getValue = val) ∧
    (∀ (val : JSVal) (m : String) (f : JSVal → JSVal) (st : Bool),
      (V1.VoidValidation.mk val).predOp m = V1.VoidValidation.mk val ∧
      (V1.VoidValidation.mk val).toInt = V1.VoidValidation.mk (intConv val) ∧
      (V1.VoidValidation.mk val).toFloat = V1.VoidValidation.mk (floatConv val) ∧
      (V1.VoidValidation.mk val).toBoolean st = V1.VoidValidation.mk (boolConv st val) ∧
      (V1.VoidValidation.mk val).toDate f = V1.VoidValidation.mk (f val) ∧
      (V1.VoidValidation.mk val).toValue f = V1.VoidValidation.mk (f val) ∧
      (V1.VoidValidation.mk val).getValue = val) :=
  ⟨fun _ _ _ _ _ _ _ _ => ⟨rfl, rfl, rfl, rfl, rfl, rfl, rfl, rfl⟩,
   fun _ _ _ _ => ⟨rfl, rfl, rfl, rfl, rfl, rfl, rfl⟩⟩

/-- C8: on source value "19" the chain
`validate("age").isInt("bad").toInt().isGreaterThan(17, "too young")`
reports no failures and a working value of the integer 19; on source
value "15" it records exactly the one message "too young" and leaves the
working value the integer 15 (converted before the failing
comparison). -/
theorem c8_age_chain_end_to_end :
    (let v : Validator := ⟨[("age", JSVal.str "19")], []⟩
     let p := v.validate "age" false
     let c := ((p.2.isInt "bad").toInt).isGreaterThan (JSVal.num (JSNum.num 17)) "too young"
     let vfin := p.1.commit c
     vfin.hasFailures none = false ∧
     vfin.hasFailures (some "age") = false ∧
     vfin.getValue (some "age") = some (JSVal.num (JSNum.num 19)) ∧
     vfin.getMessagesAt "age" = some []) ∧
    (let v : Validator := ⟨[("age", JSVal.str "15")], []⟩
     let p := v.validate "age" false
     let c := ((p.2.isInt "bad").toInt).isGreaterThan (JSVal.num (JSNum.num 17)) "too young"
     let vfin := p.1.commit c
     vfin.hasFailures (some "age") = true ∧
     vfin.getMessagesAt "age" = some ["too young"] ∧
     vfin.getValue (some "age") = some (JSVal.num (JSNum.num 15))) := by
  constructor
  · refine ⟨by decide, by decide, by decide, by decide⟩
  · refine ⟨by decide, by decide, by decide⟩

/-- C2: in stop-on-first-failure mode (`validate`), for any field and any
two predicate conditions that both fail on its resolved value, the first
failing predicate appends its message and flips `isValid`, returning an
Inert Chain carrying the value, the second predicate call is a no-op on
that Inert Chain, and the session records exactly the one message for the
field. -/
theorem c2_stop_on_fail (obj : List (String × JSVal)) (vals : List (String × Validation))
    (key : String) (trim : Bool) (cond1 cond2 : JSVal → Bool) (m1 m2 : String)
    (h1 : cond1 (Validator.resolveValue obj key trim) = false)
    (h2 : cond2 (Validator.resolveValue obj key trim) = false) :
    let p := (⟨obj, vals⟩ : Validator).validate key trim
    let c1 := p.2.predOp cond1 m1
    let c2 := c1.predOp cond2 m2
    let vfin := p.1.commit c2
    c1 = ⟨⟨key, Validator.resolveValue obj key trim, true, false, [m1]⟩,
          ChainHandle.voidValidation (Validator.resolveValue obj key trim)⟩ ∧
    c2 = c1 ∧
    vfin.getMessagesAt key = some [m1] ∧
    vfin.hasFailures (some key) = true := by
  have hc1 : ((⟨obj, vals⟩ : Validator).validate key trim).2.predOp cond1 m1
      = ⟨⟨key, Validator.resolveValue obj key trim, true, false, [m1]⟩,
         ChainHandle.voidValidation (Validator.resolveValue obj key trim)⟩ := by
    simp [Validator.validate, Validator.addValidation, Chain.predOp, checkResult, h1]
  refine ⟨hc1, ?_, ?_, ?_⟩
  · rw [hc1]
    rfl
  · rw [hc1]
    show Validator.getMessagesAt _ key = some [m1]
    simp [Chain.predOp, Validator.commit, Validator.validate, Validator.addValidation,
      Validator.getMessagesAt, Validator.hasFailures, getEntry_setEntry_self]
  · rw [hc1]
    show Validator.hasFailures _ (some key) = true
    simp [Chain.predOp, Validator.commit, Validator.validate, Validator.addValidation,
      Validator.hasFailures, getEntry_setEntry_self]

/-- C3: in collect-all mode (`validateAll`), for any field and any two
predicate conditions that both fail on its resolved value, both failure
messages are recorded for the field, in call order, and the chain stays
live throughout. -/
theorem c3_collect_all (obj : List (String × JSVal)) (vals : List (String × Validation))
    (key : String) (trim : Bool) (cond1 cond2 : JSVal → Bool) (m1 m2 : String)
    (h1 : cond1 (Validator.resolveValue obj key trim) = false)
    (h2 : cond2 (Validator.resolveValue obj key trim) = false) :
    let p := (⟨obj, vals⟩ : Validator).validateAll key trim
    let c2 := (p.2.predOp cond1 m1).predOp cond2 m2
    let vfin := p.1.commit c2
    c2 = ⟨⟨key, Validator.resolveValue obj key trim, false, false, [m1, m2]⟩,
          ChainHandle.validation⟩ ∧
    vfin.getMessagesAt key = some [m1, m2] ∧
    vfin.hasFailures (some key) = true := by
  have hc2 : (((⟨obj, vals⟩ : Validator).validateAll key trim).2.predOp cond1 m1).predOp cond2 m2
      = ⟨⟨key, Validator.resolveValue obj key trim, false, false, [m1, m2]⟩,
         ChainHandle.validation⟩ := by
    simp [Validator.validateAll, Validator.addValidation, Chain.predOp, checkResult, h1, h2]
  refine ⟨hc2, ?_, ?_⟩
  · rw [hc2]
    show Validator.getMessagesAt _ key = some [m1, m2]
    simp [Validator.commit, Validator.validateAll, Validator.addValidation,
      Validator.getMessagesAt, Validator.hasFailures, getEntry_setEntry_self]
  · rw [hc2]
    show Validator.hasFailures _ (some key) = true
    simp [Validator.commit, Validator.validateAll, Validator.addValidation,
      Validator.hasFailures, getEntry_setEntry_self]

/-- Witness for C2 at a concrete input: source value "bar" for field
"foo", both length checks fail, one message results. -/
theorem c2_stop_on_fail_witness :
    let p := (⟨[("foo", JSVal.str "bar")], []⟩ : Validator).validate "foo" false
    let c1 := p.2.predOp (fun v => match v with
      | JSVal.str s => s.length == 4
      | _ => false) "error msg"
    let c2 := c1.predOp (fun v => match v with
      | JSVal.str s => s.length == 5
      | _ => false) "error msg 2"
    let vfin := p.1.commit c2
    c1 = ⟨⟨"foo", Validator.resolveValue [("foo", JSVal.str "bar")] "foo" false,
           true, false, ["error msg"]⟩,
          ChainHandle.voidValidation
            (Validator.resolveValue [("foo", JSVal.str "bar")] "foo" false)⟩ ∧
    c2 = c1 ∧
    vfin.getMessagesAt "foo" = some ["error msg"] ∧
    vfin.hasFailures (some "foo") = true :=
  c2_stop_on_fail [("foo", JSVal.str "bar")] [] "foo" false _ _ "error msg" "error msg 2"
    (by decide) (by decide)

/-- Witness for C3 at a concrete input: the same two failing length
checks on a `validateAll` chain record both messages in order. -/
theorem c3_collect_all_witness :
    let p := (⟨[("foo", JSVal.str "bar")], []⟩ : Validator).validateAll "foo" false
    let c2 := (p.2.predOp (fun v => match v with
      | JSVal.str s => s.length == 4
      | _ => false) "error msg").predOp (fun v => match v with
      | JSVal.str s => s.length == 5
      | _ => false) "error msg 2"
    let vfin := p.1.commit c2
    c2 = ⟨⟨"foo", Validator.resolveValue [("foo", JSVal.str "bar")] "foo" false,
           false, false, ["error msg", "error msg 2"]⟩,
          ChainHandle.validation⟩ ∧
    vfin.getMessagesAt "foo" = some ["error msg", "error msg 2"] ∧
    vfin.hasFailures (some "foo") = true :=
  c3_collect_all [("foo", JSVal.str "bar")] [] "foo" false _ _ "error msg" "error msg 2"
    (by decide) (by decide)

/-- C4, counterexample: on source value "" for field "x", the chain
`validate("x").optional()` (non-strict, no default) leaves the field's
working value `undefined` — the substituted missing default — not the
empty string, so `getValue("x")` is not `""`; and the subsequent `toInt`
on the Inert Chain is a no-op rather than an execution of the
conversion. -/
theorem c4_counterexample :
    (let p := (⟨[("x", JSVal.str "")], []⟩ : Validator).validate "x" false
     let c := p.2.optional JSVal.undef false
     (p.1.commit c).getValue (some "x") = some JSVal.undef ∧
     some JSVal.undef ≠ some (JSVal.str "") ∧
     c.toInt = c ∧
     c.toInt.getValue = JSVal.undef) := by
  refine ⟨by decide, by decide, rfl, by decide⟩

/-- C4, amended: `optional()` non-strict with no default on a chain whose
current value is the empty string substitutes the missing default
(`undefined`) for the value and switches to an Inert Chain, so
`getValue()` yields the `undefined` marker — not `""` — and no failure is
recorded for the field; a subsequent `isAlpha` call (indeed any
predicate) records no failure, and in this `src/test/all.js` revision a
subsequent `toInt` is likewise a no-op rather than an executed
conversion. -/
theorem c4_optional_empty_string :
    (let p := (⟨[("x", JSVal.str "")], []⟩ : Validator).validate "x" false
     let c := p.2.optional JSVal.undef false
     c = ⟨⟨"x", JSVal.undef, true, true, []⟩, ChainHandle.voidValidation JSVal.undef⟩ ∧
     (p.1.commit c).hasFailures (some "x") = false ∧
     (p.1.commit c).getValue (some "x") = some JSVal.undef ∧
     (p.1.commit c).getMessagesAt "x" = some [] ∧
     (∀ m, c.isAlpha m = c) ∧
     c.toInt = c ∧
     c.getValue = JSVal.undef) := by
  refine ⟨by decide, by decide, by decide, by decide, fun m => rfl, rfl, by decide⟩

/-- C5: strict `optional(d, true)`.  On a field absent from the source
the resolved value is `undefined`, so the default `d` is substituted, the
expression switches to an Inert Chain, no failure is recorded and
`getValue` yields `d`.  On a field whose present value is anything other
than `undefined` — in particular any present-but-falsy value — the chain
continues unmodified with the value unchanged. -/
theorem c5_strict_optional (obj : List (String × JSVal)) (vals : List (String × Validation))
    (key : String) (d : JSVal) :
    (getEntry obj key = none →
      let p := (⟨obj, vals⟩ : Validator).validate key false
      let c := p.2.optional d true
      c = ⟨⟨key, d, true, true, []⟩, ChainHandle.voidValidation d⟩ ∧
      (p.1.commit c).hasFailures (some key) = false ∧
      (p.1.commit c).getValue (some key) = some d ∧
      (p.1.commit c).getMessagesAt key = some []) ∧
    (∀ val : JSVal, getEntry obj key = some val → val ≠ JSVal.undef →
      let p := (⟨obj, vals⟩ : Validator).validate key false
      let c := p.2.optional d true
      c = p.2 ∧
      c.reg.value = Validator.resolveValue obj key false ∧
      (p.1.commit c).hasFailures (some key) = false ∧
      (p.1.commit c).getValue (some key) = some (Validator.resolveValue obj key false)) := by
  constructor
  · intro habs
    have hrv : Validator.resolveValue obj key false = JSVal.undef := by
      simp [Validator.resolveValue, habs]
    have hc : ((⟨obj, vals⟩ : Validator).validate key false).2.optional d true
        = ⟨⟨key, d, true, true, []⟩, ChainHandle.voidValidation d⟩ := by
      simp [Validator.validate, Validator.addValidation, Chain.optional, hrv]
    refine ⟨hc, ?_, ?_, ?_⟩
    · rw [hc]
      show Validator.hasFailures _ (some key) = false
      simp [Validator.commit, Validator.validate, Validator.addValidation,
        Validator.hasFailures, getEntry_setEntry_self]
    · rw [hc]
      show Validator.getValue _ (some key) = some d
      simp [Validator.commit, Validator.validate, Validator.addValidation,
        Validator.getValue, getEntry_setEntry_self]
    · rw [hc]
      show Validator.getMessagesAt _ key = some []
      simp [Validator.commit, Validator.validate, Validator.addValidation,
        Validator.getMessagesAt, Validator.hasFailures, getEntry_setEntry_self]
  · intro val hval hne
    have hrv : Validator.resolveValue obj key false = val := by
      cases val <;> simp [Validator.resolveValue, hval]
    have hcond : ((true && val == JSVal.undef) || (!true && !val.truthy)) = false := by
      cases val with
      | undef => exact absurd rfl hne
      | null => decide
      | bool b => simp
      | num n => simp
      | str s => simp
    have hc : ((⟨obj, vals⟩ : Validator).validate key false).2.optional d true
        = ((⟨obj, vals⟩ : Validator).validate key false).2 := by
      simp only [Validator.validate, Validator.addValidation, Chain.optional, hrv]
      rw [if_neg]
      simp only [hrv] at hcond
      simp [hcond]
      intro hcontra
      cases val <;> simp_all
    refine ⟨hc, ?_, ?_, ?_⟩
    · rw [hc]
      rfl
    · rw [hc]
      show Validator.hasFailures _ (some key) = false
      simp [Validator.commit, Validator.validate, Validator.addValidation,
        Validator.hasFailures, getEntry_setEntry_self]
    · rw [hc]
      show Validator.getValue _ (some key) = some (Validator.resolveValue obj key false)
      simp [Validator.commit, Validator.validate, Validator.addValidation,
        Validator.getValue, getEntry_setEntry_self]

/-- Witness for C5 at concrete inputs: strict `optional(4, true)` on the
absent field "a" yields 4; on field "b" present with value `false` it
leaves the chain and value untouched. -/
theorem c5_strict_optional_witness :
    (let p := (⟨[("b", JSVal.bool false)], []⟩ : Validator).validate "a" false
     let c := p.2.optional (JSVal.num (JSNum.num 4)) true
     c = ⟨⟨"a", JSVal.num (JSNum.num 4), true, true, []⟩,
          ChainHandle.voidValidation (JSVal.num (JSNum.num 4))⟩ ∧
     (p.1.commit c).hasFailures (some "a") = false ∧
     (p.1.commit c).getValue (some "a") = some (JSVal.num (JSNum.num 4)) ∧
     (p.1.commit c).getMessagesAt "a" = some []) ∧
    (let p := (⟨[("b", JSVal.bool false)], []⟩ : Validator).validate "b" false
     let c := p.2.optional (JSVal.num (JSNum.num 4)) true
     c = p.2 ∧
     c.reg.value = Validator.resolveValue [("b", JSVal.bool false)] "b" false ∧
     (p.1.commit c).hasFailures (some "b") = false ∧
     (p.1.commit c).getValue (some "b")
       = some (Validator.resolveValue [("b", JSVal.bool false)] "b" false)) :=
  ⟨(c5_strict_optional [("b", JSVal.bool false)] [] "a" (JSVal.num (JSNum.num 4))).1
     (by decide),
   (c5_strict_optional [("b", JSVal.bool false)] [] "b" (JSVal.num (JSNum.num 4))).2
     (JSVal.bool false) (by decide) (by decide)⟩

/-- C6, counterexample: in a session where field "a" was never validated,
`hasFailures("a")` is true, but `getMessages("a")` does not return the
empty sequence — the code reads `validations["a"].messages` off a missing
entry, a TypeError (modelled as `none`). -/
theorem c6_counterexample :
    ((⟨[("a", JSVal.str "x")], []⟩ : Validator).hasFailures (some "a") = true) ∧
    ((⟨[("a", JSVal.str "x")], []⟩ : Validator).getMessagesAt "a" = none) ∧
    (none ≠ some ([] : List String)) := by
  refine ⟨by decide, by decide, by decide⟩

/-- C6, amended: for every session and every field name never validated,
`hasFailures(name)` returns true, and `getMessages(name)` does not return
an empty sequence — it fails with a TypeError (`none`), because
`hasFailures(name)` being true sends the code into the branch that reads
`validations[name].messages` of a non-existent entry. -/
theorem c6_never_validated (obj : List (String × JSVal))
    (vals : List (String × Validation)) (name : String)
    (h : getEntry vals name = none) :
    ((⟨obj, vals⟩ : Validator).hasFailures (some name) = true) ∧
    ((⟨obj, vals⟩ : Validator).getMessagesAt name = none) := by
  constructor
  · simp [Validator.hasFailures, h]
  · simp [Validator.getMessagesAt, Validator.hasFailures, h]

/-- Witness for C6: the concrete empty session over a one-field source. -/
theorem c6_never_validated_witness :
    ((⟨[("a", JSVal.str "x")], []⟩ : Validator).hasFailures (some "b") = true) ∧
    ((⟨[("a", JSVal.str "x")], []⟩ : Validator).getMessagesAt "b" = none) :=
  c6_never_validated [("a", JSVal.str "x")] [] "b" (by decide)

/-- C7, counterexample: `getValue(name)` on a name that was never
validated is not the `undefined` marker — the code calls
`validations[name].getValue()` on a missing entry, a TypeError (modelled
as `none`). -/
theorem c7_counterexample :
    ((⟨[], []⟩ : Validator).getValue (some "a") = none) ∧
    ((none : Option JSVal) ≠ some JSVal.undef) := by
  refine ⟨by decide, by decide⟩

/-- C7, amended: `getValue` returns the current working value of the
chain registered under the name; on a name never validated it does not
return an undefined-marker but fails with a TypeError (`none`); only a
call whose key argument is itself `undefined` returns the `undefined`
marker. -/
theorem c7_getValue (obj : List (String × JSVal))
    (vals : List (String × Validation)) :
    ((⟨obj, vals⟩ : Validator).getValue none = some JSVal.undef) ∧
    (∀ (k : String) (val : Validation), getEntry vals k = some val →
      (⟨obj, vals⟩ : Validator).getValue (some k) = some val.value) ∧
    (∀ k : String, getEntry vals k = none →
      (⟨obj, vals⟩ : Validator).getValue (some k) = none) := by
  refine ⟨rfl, ?_, ?_⟩
  · intro k val hk
    simp [Validator.getValue, hk]
  · intro k hk
    simp [Validator.getValue, hk]

/-- Witness for C7: a session with one registered validation for "a" and
none for "b". -/
theorem c7_getValue_witness :
    ((⟨[("a", JSVal.str "x")],
       [("a", ⟨"a", JSVal.str "x", true, true, []⟩)]⟩ : Validator).getValue none
        = some JSVal.undef) ∧
    ((⟨[("a", JSVal.str "x")],
       [("a", ⟨"a", JSVal.str "x", true, true, []⟩)]⟩ : Validator).getValue (some "a")
        = some (JSVal.str "x")) ∧
    ((⟨[("a", JSVal.str "x")],
       [("a", ⟨"a", JSVal.str "x", true, true, []⟩)]⟩ : Validator).getValue (some "b")
        = none) :=
  ⟨(c7_getValue [("a", JSVal.str "x")] [("a", ⟨"a", JSVal.str "x", true, true, []⟩)]).1,
   (c7_getValue [("a", JSVal.str "x")] [("a", ⟨"a", JSVal.str "x", true, true, []⟩)]).2.1
     "a" ⟨"a", JSVal.str "x", true, true, []⟩ (by decide),
   (c7_getValue [("a", JSVal.str "x")] [("a", ⟨"a", JSVal.str "x", true, true, []⟩)]).2.2
     "b" (by decide)⟩

/-- C9: `hasUnvalidatedProperties` (the spec's `hasUncheckedProperties`)
is true exactly when some source key has no registered validation.  The
length pre-check in the code is sound because the source object's keys
are distinct, so when there are fewer validation keys than source keys
some source key must be missing. -/
theorem c9_hasUnvalidatedProperties (v : Validator)
    (h : (v.obj.map Prod.fst).Nodup) :
    v.hasUnvalidatedProperties = true ↔
      ∃ k ∈ v.obj.map Prod.fst, k ∉ v.validations.map Prod.fst := by
  classical
  unfold Validator.hasUnvalidatedProperties
  by_cases hlt : (v.validations.map Prod.fst).length < (v.obj.map Prod.fst).length
  · simp only [hlt, if_true, true_iff]
    by_contra hno
    push_neg at hno
    have hsub : (v.obj.map Prod.fst) ⊆ (v.validations.map Prod.fst) :=
      fun x hx => hno x hx
    have hlen : (v.obj.map Prod.fst).length ≤ (v.validations.map Prod.fst).length := by
      calc (v.obj.map Prod.fst).length
          = (v.obj.map Prod.fst).toFinset.card := (List.toFinset_card_of_nodup h).symm
        _ ≤ (v.validations.map Prod.fst).toFinset.card := Finset.card_le_card (by
            intro x hx
            simp only [List.mem_toFinset] at hx ⊢
            exact hsub hx)
        _ ≤ (v.validations.map Prod.fst).length := (v.validations.map Prod.fst).toFinset_card_le
    omega
  · simp only [hlt, if_false]
    simp [List.any_eq_true]
    constructor
    · rintro ⟨x, hobj, hall⟩
      exact ⟨x, hobj, fun w hw => hall x w hw rfl⟩
    · rintro ⟨k, hobj, hnot⟩
      exact ⟨k, hobj, fun a b hab heq => hnot b (by rwa [heq] at hab)⟩

/-- Witness for C9 at a concrete session: source keys "a" and "b", only
"a" validated. -/
theorem c9_hasUnvalidatedProperties_witness :
    ((⟨[("a", JSVal.num (JSNum.num 1)), ("b", JSVal.str "s")],
       [("a", ⟨"a", JSVal.num (JSNum.num 1), true, true, []⟩)]⟩ :
         Validator).hasUnvalidatedProperties = true ↔
      ∃ k ∈ ([("a", JSVal.num (JSNum.num 1)), ("b", JSVal.str "s")].map Prod.fst),
        k ∉ ([("a", (⟨"a", JSVal.num (JSNum.num 1), true, true, []⟩ : Validation))].map
              Prod.fst)) :=
  c9_hasUnvalidatedProperties
    ⟨[("a", JSVal.num (JSNum.num 1)), ("b", JSVal.str "s")],
     [("a", ⟨"a", JSVal.num (JSNum.num 1), true, true, []⟩)]⟩ (by decide)

/-- C10: the aggregate `getMessages()` hands the caller a mapping whose
arrays are fresh copies (`messages.slice()`): the registered validations
(and so every `isValid` flag) are untouched, the returned mapping lists
every registered field in order, the copy under each returned reference
equals that field's recorded messages, the returned references are
disjoint from every chain's own message array, and overwriting any
returned array leaves every chain's recorded messages unchanged for all
subsequent reads. -/
theorem c10_getMessages_fresh_copies (v : RefValidator)
    (wf : ∀ p ∈ v.validations, p.2.msgRef < v.heap.length) :
    (v.getMessagesAgg.1.validations = v.validations) ∧
    (v.getMessagesAgg.2.map Prod.fst = v.validations.map Prod.fst) ∧
    (∀ i : Nat, (v.getMessagesAgg.2.get? i).map
          (fun p => heapRead v.getMessagesAgg.1.heap p.2)
        = (v.validations.get? i).map (fun q => heapRead v.heap q.2.msgRef)) ∧
    (∀ p ∈ v.getMessagesAgg.2, ∀ q ∈ v.validations, p.2 ≠ q.2.msgRef) ∧
    (∀ p ∈ v.getMessagesAgg.2, ∀ a : List String, ∀ q ∈ v.validations,
        heapRead (heapWrite v.getMessagesAgg.1.heap p.2 a) q.2.msgRef
          = heapRead v.heap q.2.msgRef) := by
  refine ⟨rfl, allocCopies_keys _ _, fun i => allocCopies_contents _ _ wf i, ?_, ?_⟩
  · intro p hp q hq
    have h1 := allocCopies_refs_ge v.validations v.heap p hp
    have h2 := wf q hq
    omega
  · intro p hp a q hq
    have h1 := allocCopies_refs_ge v.validations v.heap p hp
    have h2 := wf q hq
    have hne : p.2 ≠ q.2.msgRef := by omega
    show heapRead (heapWrite (allocCopies v.heap v.validations).1 p.2 a) q.2.msgRef
        = heapRead v.heap q.2.msgRef
    rw [heapRead_heapWrite_ne _ _ _ _ hne]
    exact allocCopies_heapRead_low _ _ _ h2

/-- Witness for C10 at a concrete session with two registered fields. -/
theorem c10_getMessages_fresh_copies_witness :
    (let v : RefValidator := ⟨[("a", ⟨true, 0⟩), ("b", ⟨false, 1⟩)],
       [["m1"], ["m2", "m3"]]⟩
     v.getMessagesAgg.1.validations = v.validations ∧
     v.getMessagesAgg.2.map Prod.fst = ["a", "b"] ∧
     heapRead (heapWrite v.getMessagesAgg.1.heap 2 ["hacked"]) 0 = ["m1"]) := by
  have h := c10_getMessages_fresh_copies
    ⟨[("a", ⟨true, 0⟩), ("b", ⟨false, 1⟩)], [["m1"], ["m2", "m3"]]⟩ (by decide)
  refine ⟨h.1, ?_, ?_⟩
  · rw [h.2.1]
    rfl
  · have := h.2.2.2.2 ("a", 2) (by decide) ["hacked"] ("a", ⟨true, 0⟩) (by decide)
    simpa using this
